import Mathlib

/-!
Shallow embedding of the HTTP/1.1 server core in `src/server.rs` of the
async-h1 repository: the request decoder (`decode`), the response encoder
(`encode` and the pull-based `Encoder`), and the connection driver
(`connect`).  Byte streams are modelled as `List Nat` (each element a byte
value); reading from a stream consumes elements from the front.  Fallible
Rust code returning `Result` is modelled with `Except String`, carrying the
same error messages the Rust code produces.
-/

namespace AsyncH1

/-- Bytes of a (ASCII) string, used to write wire data in the model. -/
def strBytes (s : String) : List Nat :=
  s.data.map Char.toNat

/-- Rebuild a string from bytes (used where the Rust code converts parsed
byte slices to `&str`). -/
def bytesToString (bs : List Nat) : String :=
  String.mk (bs.map Char.ofNat)

/-- Model of `std::str::from_utf8` restricted to ASCII byte sequences: the
header values exercised by this development are all ASCII, for which
`from_utf8` succeeds exactly when every byte is below 128. -/
def asciiDecode (bs : List Nat) : Option String :=
  if bs.all (fun b => b < 128) then some (bytesToString bs) else none

/-! ### Header scanner (lines 174-186 of `server.rs`)

`decode` wraps its reader in a `BufReader` and repeatedly calls
`read_until(b'\n', &mut buf)`, stopping when the accumulated buffer ends in
`\r\n\r\n` or when a read yields zero bytes (end of stream). -/

/-- The head-scanning loop of `decode`, byte by byte.  The Rust loop reads
whole lines with `read_until(b'\n')` and checks the accumulated buffer's
last four bytes after each read; since the terminator ends in `\n`, the
check can only succeed at a byte `\n`, so scanning one byte at a time and
testing the tail exactly at each `\n` (a `read_until` boundary) is the
same loop.  A chunk read at end of stream without a `\n` never matches the
check either way, and the following zero-byte read returns `none`
(`Ok(None)` in the Rust code). -/
def scanHeadAux : List Nat → List Nat → Option (List Nat × List Nat)
  | _, [] => none
  | acc, b :: t =>
    let acc' := acc ++ [b]
    if b = 10 ∧ 4 ≤ acc'.length ∧ acc'.drop (acc'.length - 4) = [13, 10, 13, 10] then
      some (acc', t)
    else
      scanHeadAux acc' t

/-- The header scan as `decode` performs it, starting from an empty buffer. -/
def scanHead (input : List Nat) : Option (List Nat × List Nat) :=
  scanHeadAux [] input

/-- Whether the byte list contains the head terminator `\r\n\r\n` anywhere. -/
def hasTerminator : List Nat → Bool
  | [] => false
  | b :: t => (((b :: t).take 4) = [13, 10, 13, 10] : Bool) || hasTerminator t

/-! ### Model of the external `httparse` crate

The Rust decoder feeds the scanned buffer to `httparse::Request::parse`.
`httparse` is an external collaborator (spec section 6); the model below
captures its behaviour on the inputs this development exercises: a request
line `METHOD SP TARGET SP HTTP/1.x\r\n` followed by `Name: Value\r\n`
header lines and a terminating empty line.  `httparse` accepts exactly the
version strings `HTTP/1.0` (minor version 0) and `HTTP/1.1` (minor
version 1) and rejects anything else with a version error.  Header values
have surrounding spaces/tabs trimmed.  A successfully parsed request
always carries a method, a target and a version; the fields are kept as
`Option` because the Rust structure exposes them as `Option` and the
decoder checks each with `ok_or_else`. -/

structure HReq where
  method : Option String
  path : Option String
  version : Option Nat
  headers : List (String × List Nat)
deriving DecidableEq

/-- Split a byte list at the first `\r\n` pair: the line before it and the
remainder after it.  `none` when no `\r\n` is present (a partial head). -/
def splitCRLF : List Nat → Option (List Nat × List Nat)
  | [] => none
  | [_] => none
  | a :: b :: t =>
    if a = 13 ∧ b = 10 then some ([], t)
    else
      match splitCRLF (b :: t) with
      | some (l, r) => some (a :: l, r)
      | none => none

/-- Split a byte list at the first space byte; the space is dropped. -/
def splitSp : List Nat → List Nat × List Nat
  | [] => ([], [])
  | b :: t =>
    if b = 32 then ([], t)
    else
      let p := splitSp t
      (b :: p.1, p.2)

/-- Split a byte list at the first colon byte; the colon is dropped.
`none` when no colon is present. -/
def splitColon : List Nat → Option (List Nat × List Nat)
  | [] => none
  | b :: t =>
    if b = 58 then some ([], t)
    else
      match splitColon t with
      | some (l, r) => some (b :: l, r)
      | none => none

/-- Printable non-space byte, the token characters accepted in methods,
targets and header names. -/
def isTokenByte (b : Nat) : Bool :=
  32 < b && b < 127

/-- Space or horizontal tab. -/
def isWsByte (b : Nat) : Bool :=
  b = 32 || b = 9

/-- Trim leading and trailing spaces/tabs, as `httparse` does for header
values. -/
def trimWs (bs : List Nat) : List Nat :=
  ((bs.dropWhile isWsByte).reverse.dropWhile isWsByte).reverse

/-- Modelled from the spec: `MAX_HEADERS` is a crate-level constant
(`use crate::{Exception, MAX_HEADERS}`) whose defining module is not under
`src/`; spec section 6 describes it as "a fixed maximum header-field count
per message (configuration constant)".  The crate's default header array
size is 128. -/
def MAX_HEADERS : Nat := 128

/-- Version token parsing of `httparse`: exactly `HTTP/1.0` and `HTTP/1.1`
are accepted, yielding the minor version; everything else is a version
parse error. -/
def parseVersionBytes (bs : List Nat) : Except String Nat :=
  if bs = strBytes ("HTTP/1.1") then .ok 1
  else if bs = strBytes ("HTTP/1.0") then .ok 0
  else .error ("invalid HTTP version")

/-- Parse one header line `Name: Value` (already stripped of `\r\n`). -/
def parseHeaderLine (line : List Nat) : Except String (String × List Nat) :=
  match splitColon line with
  | none => .error ("invalid header name")
  | some (name, rest) =>
    if name = [] ∨ ¬ name.all isTokenByte then .error ("invalid header name")
    else .ok (bytesToString name, trimWs rest)

/-- Parse the header lines following the request line, stopping at the
empty line.  Fuel decreases with each line; `decode` supplies enough fuel
for the whole buffer.  Returns `none` for a partial head (no terminating
empty line within the buffer). -/
def parseHeaderLines : Nat → List Nat → Except String (Option (List (String × List Nat)))
  | 0, _ => .ok none
  | fuel + 1, bs =>
    match splitCRLF bs with
    | none => .ok none
    | some (line, rest) =>
      if line = [] then .ok (some [])
      else
        match parseHeaderLine line with
        | .error e => .error e
        | .ok h =>
          match parseHeaderLines fuel rest with
          | .error e => .error e
          | .ok none => .ok none
          | .ok (some hs) => .ok (some (h :: hs))

/-- Model of `httparse::Request::parse` on the scanned head buffer:
`.ok none` is a partial parse (`status.is_partial()` in the Rust code),
`.error` a parse failure, `.ok (some _)` a complete parse. -/
def httparseParse (buf : List Nat) : Except String (Option HReq) :=
  match splitCRLF buf with
  | none => .ok none
  | some (line1, rest1) =>
    let mp := splitSp line1
    let pp := splitSp mp.2
    if mp.1 = [] ∨ ¬ mp.1.all isTokenByte then .error ("invalid token")
    else if pp.1 = [] ∨ ¬ pp.1.all isTokenByte then .error ("invalid token")
    else
      match parseVersionBytes pp.2 with
      | .error e => .error e
      | .ok v =>
        match parseHeaderLines (buf.length + 1) rest1 with
        | .error e => .error e
        | .ok none => .ok none
        | .ok (some hs) =>
          if MAX_HEADERS < hs.length then .error ("too many headers")
          else .ok (some ⟨some (bytesToString mp.1), some (bytesToString pp.1), some v, hs⟩)

/-! ### Model of the external `url` crate

Line 198 of `server.rs` parses the request target with `url::Url::parse`.
That parser (WHATWG URL) accepts only absolute URL strings: the input must
begin with a scheme (an ASCII letter followed by letters, digits, `+`, `-`
or `.`) terminated by a colon; anything else — in particular an
origin-form target such as `/` — fails with the error displayed as
`relative URL without a base`. -/

/-- Scheme tail: letters/digits/`+`/`-`/`.` up to a terminating colon. -/
def hasSchemeTail : List Char → Bool
  | [] => false
  | c :: t =>
    if c.toNat = 58 then true
    else (c.isAlpha || c.isDigit || c.toNat = 43 || c.toNat = 45 || c.toNat = 46) && hasSchemeTail t

/-- Whether the string starts with a valid URL scheme followed by a colon. -/
def hasScheme : List Char → Bool
  | [] => false
  | c :: t => c.isAlpha && hasSchemeTail t

/-- Model of `url::Url::parse` at the granularity this development needs:
absolute URL strings (with a scheme) parse, relative references are
rejected with the crate's `relative URL without a base` error. -/
def urlParse (s : String) : Except String String :=
  if hasScheme s.data then .ok s else .error ("relative URL without a base")

/-! ### Model of `http_types` pieces used by `decode` -/

/-- Method tokens accepted by `http_types::Method::from_str`. -/
def knownMethods : List String :=
  ["GET", "HEAD", "POST", "PUT", "DELETE", "CONNECT", "OPTIONS", "TRACE", "PATCH"]

/-- Model of `Method::from_str` (line 203): known tokens parse, anything
else is an error. -/
def methodFromStr (s : String) : Except String String :=
  if s ∈ knownMethods then .ok s else .error ("invalid HTTP method")

/-- Model of Rust's `str::parse::<usize>`: an optional leading `+`, then
one or more ASCII digits, value below 2^64 (64-bit `usize`). -/
def parseUsize (s : String) : Option Nat :=
  let cs :=
    match s.data with
    | c :: t => if c.toNat = 43 then t else c :: t
    | [] => []
  if cs = [] then none
  else if cs.all (fun c => c.isDigit) then
    let v := cs.foldl (fun a c => a * 10 + (c.toNat - 48)) 0
    if v < 18446744073709551616 then some v else none
  else none

/-- Lower-case an ASCII letter, identity elsewhere. -/
def lowerChar (c : Char) : Char :=
  if 65 ≤ c.toNat ∧ c.toNat ≤ 90 then Char.ofNat (c.toNat + 32) else c

/-- Model of `str::eq_ignore_ascii_case` (line 212). -/
def eqIgnoreCase (a b : String) : Bool :=
  a.data.map lowerChar == b.data.map lowerChar

/-- The `Content-Length` lookup of lines 209-213: the first header whose
name equals `Content-Length` up to ASCII case. -/
def findCL (hs : List (String × List Nat)) : Option (String × List Nat) :=
  hs.find? (fun h => eqIgnoreCase h.1 ("Content-Length"))

/-- The `set_header` loop of lines 204-206: each raw header value is
converted to text (`str::from_utf8`, an error on invalid bytes) and
installed in order. -/
def setHeaders : List (String × List Nat) → Except String (List (String × String))
  | [] => .ok []
  | (n, v) :: t =>
    match asciiDecode v with
    | none => .error ("invalid utf-8")
    | some s =>
      match setHeaders t with
      | .error e => .error e
      | .ok hs => .ok ((n, s) :: hs)

/-- Model of `http_types::Request` as `decode` constructs it: method, the
parsed target, installed headers, and the body binding — `bodyStream` is
the underlying stream handed to `set_body` (empty when no body was
attached) and `len` the declared length from `set_len`. -/
structure Request where
  method : String
  url : String
  headers : List (String × String)
  bodyStream : List Nat := []
  len : Option Nat := none
deriving DecidableEq

/-- Lines 196-229 of `server.rs`: the validation and construction steps
after a complete header parse.  `rest` is the remaining stream held by the
`BufReader`.  Each `match` mirrors one fallible step of the Rust code, in
source order, with its error message. -/
def finishDecode (hreq : HReq) (rest : List Nat) :
    Except String (Option (Request × Option (List Nat))) :=
  match hreq.method with
  | none => .error ("No method found")
  | some method =>
    match hreq.path with
    | none => .error ("No uri found")
    | some uriStr =>
      match urlParse uriStr with
      | .error e => .error e
      | .ok uri =>
        match hreq.version with
        | none => .error ("No version found")
        | some version =>
          if version ≠ 1 then .error ("Unsupported HTTP version")
          else
            match methodFromStr method with
            | .error e => .error e
            | .ok m =>
              match setHeaders hreq.headers with
              | .error e => .error e
              | .ok hdrs =>
                let req : Request := { method := m, url := uri, headers := hdrs }
                match findCL hreq.headers with
                | some cl =>
                  match (asciiDecode cl.2).bind parseUsize with
                  | some len =>
                    .ok (some ({ req with bodyStream := rest, len := some len }, none))
                  | none => .error ("Invalid value for Content-Length")
                | none => .ok (some (req, some rest))

/-- Lines 163-229: `decode`.  Scan the head; a zero-byte read before the
terminator yields `Ok(None)`; then parse with `httparse` (a partial parse
is `Malformed HTTP head`) and build the request. -/
def decode (input : List Nat) : Except String (Option (Request × Option (List Nat))) :=
  match scanHead input with
  | none => .ok none
  | some (buf, rest) =>
    match httparseParse buf with
    | .error e => .error e
    | .ok none => .error ("Malformed HTTP head")
    | .ok (some hreq) => finishDecode hreq rest

/-- All pre-body validation stages of `finishDecode` succeed: method,
target, URL parse, version `1`, method token, header text conversion. -/
def headStagesOk (hreq : HReq) : Bool :=
  match hreq.method, hreq.path, hreq.version with
  | some m, some p, some v =>
    (match urlParse p with | .ok _ => true | .error _ => false)
    && (v == 1)
    && (match methodFromStr m with | .ok _ => true | .error _ => false)
    && (match setHeaders hreq.headers with | .ok _ => true | .error _ => false)
  | _, _, _ => false

/-! ### Response and encoder (lines 69-161 of `server.rs`) -/

/-- Model of `http_types::Response` as `encode` consumes it: the status
code, the handler-set headers, and the body.  `body` is the byte sequence
the body source will yield; `lenKnown` models whether `res.len()` returns
`Some` (a fixed-length body) or `None` (a streaming body of unknown
length). -/
structure Response where
  status : Nat
  headers : List (String × String)
  body : List Nat
  lenKnown : Bool
deriving DecidableEq

/-- Model of `StatusCode::canonical_reason` for the codes used here. -/
def canonicalReason (status : Nat) : String :=
  if status = 200 then "OK"
  else if status = 404 then "Not Found"
  else if status = 500 then "Internal Server Error"
  else "Unknown"

/-- The status line written at line 142: `HTTP/1.1 <code> <reason>\r\n`. -/
def statusLine (res : Response) : String :=
  "HTTP/1.1 " ++ toString res.status ++ " " ++ canonicalReason res.status ++ "\r\n"

/-- One serialized header line (line 156): `Name: Value\r\n`. -/
def headerLine (h : String × String) : String :=
  h.1 ++ ": " ++ h.2 ++ "\r\n"

/-- The streaming `Encoder` of lines 72-100: a cursor over the
materialized header buffer plus the response body.  The `Response` held by
the Rust encoder is represented by the bytes its body source has yet to
yield (`body`), since reading the response reads its body. -/
structure Encoder where
  cursor : Nat
  headers : List Nat
  headersDone : Bool
  body : List Nat
  bodyDone : Bool
  bodyBytesRead : Nat
deriving DecidableEq

/-- `Encoder::new` (lines 89-99). -/
def Encoder.new (headers : List Nat) (body : List Nat) : Encoder :=
  ⟨0, headers, false, body, false, 0⟩

/-- One `poll_read` call (lines 102-133) with a caller buffer of `bufLen`
bytes, returning the bytes written into the buffer and the new state.  The
response body is modelled as an always-ready byte source (`Poll::Pending`
is a scheduling artefact outside this embedding): a body read with
capacity `c` yields `min c` remaining bytes. -/
def pollRead (e : Encoder) (bufLen : Nat) : List Nat × Encoder :=
  let hdr :=
    if e.headersDone then ([], e)
    else
      let len := min (e.headers.length - e.cursor) bufLen
      let out := (e.headers.drop e.cursor).take len
      let cursor := e.cursor + len
      (out, { e with cursor := cursor, headersDone := cursor = e.headers.length })
  let hdrOut := hdr.1
  let e1 := hdr.2
  if e1.bodyDone then (hdrOut, e1)
  else
    let n := min e1.body.length (bufLen - hdrOut.length)
    let bOut := e1.body.take n
    (hdrOut ++ bOut,
      { e1 with
        body := e1.body.drop n
        bodyBytesRead := e1.bodyBytesRead + n
        bodyDone := hdrOut.length + n = 0 })

/-- Drive `pollRead` over a list of caller-buffer capacities, concatenating
the produced bytes. -/
def emitAll : Encoder → List Nat → List Nat × Encoder
  | e, [] => ([], e)
  | e, c :: cs =>
    let p := pollRead e c
    let q := emitAll p.2 cs
    (p.1 ++ q.1, q.2)

/-- The bytes `io::copy` (line 51) transfers from an `Encoder` to the
writer: the header buffer followed by the whole body. -/
def Encoder.allBytes (e : Encoder) : List Nat :=
  e.headers ++ e.body

/-- State invariant of an `Encoder` born as `Encoder.new hs bs` that has
emitted `out` so far through positive-capacity reads: the cursor indexes
into the header buffer, `headersDone` tracks its exhaustion exactly, and
the emitted bytes are a header prefix followed (only once the headers are
exhausted) by a body prefix. -/
def EncInv (hs bs : List Nat) (e : Encoder) (out : List Nat) : Prop :=
  e.headers = hs ∧
  e.cursor ≤ hs.length ∧
  (e.headersDone = true ↔ e.cursor = hs.length) ∧
  ∃ k, k ≤ bs.length ∧ e.body = bs.drop k ∧
    out = hs.take e.cursor ++ bs.take k ∧
    (e.cursor < hs.length → k = 0) ∧
    (e.bodyDone = true → bs.length ≤ k ∧ e.cursor = hs.length)

/-- The framing decision of lines 144-153: with a known body length the
encoder writes a `Content-Length` header; without one it writes a chunked
transfer-encoding header and then panics (`chunked encoding is not
implemented yet`) — an abnormal termination modelled as an error, so no
`Encoder` is ever produced on that path. -/
def framingLine (res : Response) : Except String (List Nat) :=
  if res.lenKnown then
    .ok (strBytes ("Content-Length: " ++ toString res.body.length ++ "\r\n"))
  else .error ("chunked encoding is not implemented yet")

/-- `encode` (lines 135-161): serialize the status line, the framing
header, each response header and a blank line, and wrap the buffer with
the response body in a fresh `Encoder`. -/
def encode (res : Response) : Except String Encoder :=
  match framingLine res with
  | .error e => .error e
  | .ok fl =>
    .ok (Encoder.new
      (strBytes (statusLine res) ++ fl
        ++ (res.headers.map (fun h => strBytes (headerLine h))).flatten
        ++ strBytes ("\r\n"))
      res.body)

/-! ### Connection driver (lines 17-67 of `server.rs`) -/

/-- Modelled from the spec: `Request::into_body` and the `http_types`
`Body` reader live in the `http_types` crate, not under `src/`.  Spec
sections 3 and 4.3 state that the continuation derived from a request with
a fixed-length body is the body cursor positioned after the declared
length, "ensuring any unread trailing bytes of an under-consumed body are
skipped before the next header scan".  A handler that consumed `k` of the
`n` declared bytes leaves the reader at `stream.drop k` with `n - k`
declared bytes still to skip. -/
def bodyReaderAfter (stream : List Nat) (n k : Nat) : List Nat :=
  (stream.drop k).drop (n - k)

/-- The `req.into_body()` continuation used by the connection driver
(line 48), with the spec-modelled drain of `bodyReaderAfter` and a handler
that consumed none of the body. -/
def intoBodyDrained (req : Request) : List Nat :=
  bodyReaderAfter req.bodyStream (req.len.getD 0) 0

/-- The `to_decode` selection of lines 47-50: the continuation reader when
the decoder produced one, otherwise the served request's body reader. -/
def nextParseSource (req : Request) (cont : Option (List Nat)) : List Nat :=
  match cont with
  | some s => s
  | none => intoBodyDrained req

/-- `MAX_REQUESTS` (line 30). -/
def MAX_REQUESTS : Nat := 200

deriving instance DecidableEq for Except

/-- Observable outcome of `connect`: the bytes written to the writer, the
number of handler invocations, and the result. -/
structure ConnOut where
  out : List Nat
  calls : Nat
  result : Except String Unit
deriving DecidableEq

/-- The `loop` of lines 39-63, with explicit fuel (the request-counter
check bounds the depth, so `connect` supplies exactly enough fuel and the
zero-fuel branch is unreachable).  `schedule m` models whether the
10-second idle timeout elapses while waiting for request `m + 1`; the
handler is a total function (handler errors are outside the claims).
Each iteration: bump and check the request counter, encode the handler's
response, pick the next parse source, write the response bytes, then
either time out, reach EOF, fail, or decode the next request. -/
def connectLoop (handler : Request → Response) (schedule : Nat → Bool) :
    Nat → Nat → Request → Option (List Nat) → List Nat → Nat → ConnOut
  | 0, _, _, _, out, count => ⟨out, count, .error ("out of fuel")⟩
  | fuel + 1, num, req, cont, out, count =>
    let num := num + 1
    if MAX_REQUESTS < num then ⟨out, count, .ok ()⟩
    else
      match encode (handler req) with
      | .error e => ⟨out, count, .error e⟩
      | .ok enc =>
        let toDecode := nextParseSource req cont
        let out := out ++ enc.allBytes
        if schedule num then ⟨out, count + 1, .ok ()⟩
        else
          match decode toDecode with
          | .ok (some (r, c)) => connectLoop handler schedule fuel num r c out (count + 1)
          | .ok none => ⟨out, count + 1, .ok ()⟩
          | .error e => ⟨out, count + 1, .error e⟩

/-- `connect` (lines 17-67): decode the first request (immediate EOF is a
successful no-op), then drive the serving loop. -/
def connect (input : List Nat) (handler : Request → Response) (schedule : Nat → Bool) :
    ConnOut :=
  match decode input with
  | .error e => ⟨[], 0, .error e⟩
  | .ok none => ⟨[], 0, .ok ()⟩
  | .ok (some (req, cont)) =>
    connectLoop handler schedule (MAX_REQUESTS + 1) 0 req cont [] 0

/-- The stream yields at least `n` further well-formed back-to-back
requests starting from a just-decoded request and continuation, following
the driver's own next-source selection. -/
def availNext : Nat → Request → Option (List Nat) → Bool
  | 0, _, _ => true
  | n + 1, req, cont =>
    match decode (nextParseSource req cont) with
    | .ok (some (r, c)) => availNext n r c
    | _ => false

/-- The input stream contains at least `n` well-formed back-to-back
requests. -/
def availInput : Nat → List Nat → Bool
  | 0, _ => true
  | n + 1, input =>
    match decode input with
    | .ok (some (r, c)) => availNext n r c
    | _ => false

/-! ## Helper lemmas -/

theorem hasTerminator_of_drop :
    ∀ (i : Nat) (l : List Nat), (l.drop i).take 4 = [13, 10, 13, 10] →
      hasTerminator l = true := by
  intro i
  induction i with
  | zero =>
    intro l h
    match l with
    | [] => simp at h
    | b :: t =>
      simp only [List.drop_zero] at h
      simp [hasTerminator, h]
  | succ i ih =>
    intro l h
    match l with
    | [] => simp at h
    | b :: t =>
      simp only [List.drop_succ_cons] at h
      simp [hasTerminator, ih t h]

theorem scanHeadAux_none :
    ∀ (input acc : List Nat),
      hasTerminator (acc ++ input) = false → scanHeadAux acc input = none := by
  intro input
  induction input with
  | nil => intro acc _; rfl
  | cons b t ih =>
    intro acc h
    simp only [scanHeadAux]
    by_cases hc : b = 10 ∧ 4 ≤ (acc ++ [b]).length ∧
        (acc ++ [b]).drop ((acc ++ [b]).length - 4) = [13, 10, 13, 10]
    · exfalso
      have hterm : hasTerminator ((acc ++ [b]) ++ t) = true := by
        apply hasTerminator_of_drop ((acc ++ [b]).length - 4)
        rw [List.drop_append_of_le_length (Nat.sub_le _ _), hc.2.2]
        rfl
      rw [List.append_assoc, List.singleton_append, h] at hterm
      exact Bool.false_ne_true hterm
    · rw [if_neg hc]
      apply ih
      rw [List.append_assoc, List.singleton_append]
      exact h

/-! ## Claims -/

/-- C9: a zero-byte read at any point before the header terminator
`\r\n\r\n` is reached (that is, on any input stream that never yields the
terminator, including one where header bytes were already accumulated)
makes `decode` return `Ok(None)` rather than an error, and `decode` on a
stream already at end-of-stream returns `Ok(None)` every time (the model
is a pure function of the stream, so one evaluation covers every call). -/
theorem c9_eof_before_terminator_is_ok_none :
    (∀ input : List Nat, hasTerminator input = false → decode input = .ok none) ∧
    decode [] = .ok none := by
  constructor
  · intro input h
    have hscan : scanHead input = none := by
      rw [scanHead]
      apply scanHeadAux_none
      simpa using h
    simp [decode, hscan]
  · rfl

/-- Witness for C9 at a concrete input: the partial head `GET` (header
bytes accumulated, terminator never reached) decodes to `Ok(None)`. -/
theorem c9_witness :
    decode (strBytes ("GET")) = .ok none ∧ decode [] = .ok none :=
  ⟨c9_eof_before_terminator_is_ok_none.1 (strBytes ("GET")) (by decide),
   c9_eof_before_terminator_is_ok_none.2⟩

/-- C2 (failing-input evaluation): on the spec's canonical scenario input
`GET / HTTP/1.1\r\nHost: a\r\n\r\n` the decoder fails — the origin-form
target `/` is handed to `url::Url::parse`, which rejects relative
references — so `connect` propagates an error and never writes the
expected 200 response bytes. -/
theorem c2_scenario_decode_fails :
    decode (strBytes ("GET / HTTP/1.1\r\nHost: a\r\n\r\n")) =
      .error ("relative URL without a base") := by decide

/-- C3: every well-formed request head whose request-line target is an
origin-form path (it begins with `/`, so it has no scheme) is rejected by
`decode` with the URI parser's relative-reference error. -/
theorem c3_origin_form_target_rejected :
    ∀ (input buf rest : List Nat) (hreq : HReq) (m p : String) (t : List Char),
      scanHead input = some (buf, rest) →
      httparseParse buf = .ok (some hreq) →
      hreq.method = some m →
      hreq.path = some p →
      p.data = Char.ofNat 47 :: t →
      decode input = .error ("relative URL without a base") := by
  intro input buf rest hreq m p t hscan hparse hm hp hpd
  have hurl : urlParse p = .error ("relative URL without a base") := by
    rw [urlParse, hpd]
    simp [hasScheme, show (Char.ofNat 47).isAlpha = false from by decide]
  simp [decode, hscan, hparse, finishDecode, hm, hp, hurl]

/-- Witness for C3: the request `GET / HTTP/1.1\r\n\r\n` is rejected. -/
theorem c3_witness :
    decode (strBytes ("GET / HTTP/1.1\r\n\r\n")) =
      .error ("relative URL without a base") :=
  c3_origin_form_target_rejected
    (strBytes ("GET / HTTP/1.1\r\n\r\n")) (strBytes ("GET / HTTP/1.1\r\n\r\n")) []
    ⟨some ("GET"), some ("/"), some 1, []⟩ ("GET") ("/") []
    (by decide) (by decide) rfl rfl (by decide)

/-- C1: when the just-served request carried a fixed-length body
(`decode` returned it with no separate continuation and a declared length
`n`), the driver's next parse source is the request's body reader, and —
per the spec-modelled drain of `bodyReaderAfter` — it skips the unread
trailing bytes even when the handler consumed only `k ≤ n` bytes: the
next head scan starts exactly `n` bytes after the header block, i.e. at
`rest.drop n` where `rest` is the stream right after the scanned head. -/
theorem c1_next_scan_after_declared_length :
    ∀ (input : List Nat) (req : Request) (n k : Nat) (buf rest : List Nat),
      decode input = .ok (some (req, none)) →
      req.len = some n →
      k ≤ n →
      scanHead input = some (buf, rest) →
      bodyReaderAfter req.bodyStream n k = nextParseSource req none ∧
      nextParseSource req none = rest.drop n := by
  intro input req n k buf rest hdec hlen hk hscan
  have hbody : req.bodyStream = rest := by
    simp only [decode, hscan] at hdec
    cases hparse : httparseParse buf with
    | error e => rw [hparse] at hdec; exact absurd hdec (by simp)
    | ok o =>
      cases o with
      | none => rw [hparse] at hdec; exact absurd hdec (by simp)
      | some hreq =>
        rw [hparse] at hdec
        simp only [finishDecode] at hdec
        repeat' split at hdec
        all_goals
          first
          | (simp only [Except.ok.injEq, Option.some.injEq, Prod.mk.injEq, and_true] at hdec
             subst hdec
             rfl)
          | exact absurd hdec (by simp)
  have hdrop : ∀ j, j ≤ n → (req.bodyStream.drop j).drop (n - j) = req.bodyStream.drop n := by
    intro j hj
    rw [List.drop_drop]
    congr 1
    omega
  constructor
  · rw [bodyReaderAfter, nextParseSource, intoBodyDrained, bodyReaderAfter, hlen, hdrop k hk]
    simp
  · rw [nextParseSource, intoBodyDrained, bodyReaderAfter, hlen, hbody]
    simp

/-- Witness for C1: a `POST` with `Content-Length: 3` and body `abc`
followed by further stream bytes; a handler that read `k = 1` byte still
leaves the next parse exactly after the three declared bytes. -/
theorem c1_witness :
    bodyReaderAfter
        (Request.bodyStream
          { method := "POST", url := "http://a/x", headers := [("Content-Length", "3")],
            bodyStream := strBytes ("abcREST"), len := some 3 }) 3 1 =
      nextParseSource
        { method := "POST", url := "http://a/x", headers := [("Content-Length", "3")],
          bodyStream := strBytes ("abcREST"), len := some 3 } none ∧
    nextParseSource
        { method := "POST", url := "http://a/x", headers := [("Content-Length", "3")],
          bodyStream := strBytes ("abcREST"), len := some 3 } none =
      (strBytes ("abcREST")).drop 3 :=
  c1_next_scan_after_declared_length
    (strBytes ("POST http://a/x HTTP/1.1\r\nContent-Length: 3\r\n\r\nabcREST"))
    { method := "POST", url := "http://a/x", headers := [("Content-Length", "3")],
      bodyStream := strBytes ("abcREST"), len := some 3 }
    3 1
    (strBytes ("POST http://a/x HTTP/1.1\r\nContent-Length: 3\r\n\r\n"))
    (strBytes ("abcREST"))
    (by decide) rfl (by decide) (by decide)

theorem urlParse_error_msg :
    ∀ (p : String) (e : String), urlParse p = .error e → e = "relative URL without a base" := by
  intro p e h
  rw [urlParse] at h
  by_cases hs : hasScheme p.data = true
  · rw [if_pos hs] at h; exact absurd h (by simp)
  · rw [if_neg hs] at h
    injection h with h
    exact h.symm

theorem methodFromStr_error_msg :
    ∀ (m e : String), methodFromStr m = .error e → e = "invalid HTTP method" := by
  intro m e h
  rw [methodFromStr] at h
  by_cases hm : m ∈ knownMethods
  · rw [if_pos hm] at h; exact absurd h (by simp)
  · rw [if_neg hm] at h
    injection h with h
    exact h.symm

theorem setHeaders_error_msg :
    ∀ (hs : List (String × List Nat)) (e : String),
      setHeaders hs = .error e → e = "invalid utf-8" := by
  intro hs
  induction hs with
  | nil => intro e h; exact absurd h (by simp [setHeaders])
  | cons hd tl ih =>
    intro e h
    rw [setHeaders] at h
    cases hd with
    | mk n v =>
      cases ha : asciiDecode v with
      | none => rw [ha] at h; injection h with h; exact h.symm
      | some s =>
        rw [ha] at h
        cases ht : setHeaders tl with
        | error e2 =>
          rw [ht] at h
          injection h with h
          rw [← h]
          exact ih e2 ht
        | ok hs2 => rw [ht] at h; exact absurd h (by simp)

/-- C4: body framing of `decode`.  With every pre-body stage succeeding:
a header block without `Content-Length` yields a request with an empty
body (no stream bound, no declared length) and the remaining stream as a
non-null continuation; a header block with a `Content-Length` value that
parses as a non-negative integer `n` yields a request whose body is the
remaining stream tagged with declared length `n` and no continuation; a
`Content-Length` value that does not parse yields the
`Invalid value for Content-Length` error. -/
theorem c4_body_framing :
    ∀ (hreq : HReq) (rest : List Nat) (m p u m2 : String) (hdrs : List (String × String)),
      hreq.method = some m → hreq.path = some p → urlParse p = .ok u →
      hreq.version = some 1 → methodFromStr m = .ok m2 →
      setHeaders hreq.headers = .ok hdrs →
      ((findCL hreq.headers = none →
          finishDecode hreq rest =
            .ok (some ({ method := m2, url := u, headers := hdrs }, some rest)))
       ∧ (∀ cl n, findCL hreq.headers = some cl →
            (asciiDecode cl.2).bind parseUsize = some n →
            finishDecode hreq rest =
              .ok (some ({ method := m2, url := u, headers := hdrs, bodyStream := rest,
                           len := some n }, none)))
       ∧ (∀ cl, findCL hreq.headers = some cl →
            (asciiDecode cl.2).bind parseUsize = none →
            finishDecode hreq rest = .error ("Invalid value for Content-Length"))) := by
  intro hreq rest m p u m2 hdrs hm hp hu hv hmf hsh
  refine ⟨?_, ?_, ?_⟩
  · intro hcl
    simp [finishDecode, hm, hp, hu, hv, hmf, hsh, hcl]
  · intro cl n hcl hpn
    simp [finishDecode, hm, hp, hu, hv, hmf, hsh, hcl, hpn]
  · intro cl hcl hpn
    simp [finishDecode, hm, hp, hu, hv, hmf, hsh, hcl, hpn]

/-- Witness for C4 at concrete requests: no `Content-Length` gives an
empty body and a continuation; `Content-Length: 3` binds the remaining
stream with length 3 and no continuation; `Content-Length: xy` is the
invalid-Content-Length error. -/
theorem c4_witness :
    finishDecode ⟨some ("GET"), some ("http://a/"), some 1, []⟩ (strBytes ("XY")) =
      .ok (some ({ method := "GET", url := "http://a/", headers := [] }, some (strBytes ("XY")))) ∧
    finishDecode ⟨some ("GET"), some ("http://a/"), some 1,
        [("Content-Length", strBytes ("3"))]⟩ (strBytes ("XY")) =
      .ok (some ({ method := "GET", url := "http://a/",
                   headers := [("Content-Length", "3")],
                   bodyStream := strBytes ("XY"), len := some 3 }, none)) ∧
    finishDecode ⟨some ("GET"), some ("http://a/"), some 1,
        [("Content-Length", strBytes ("xy"))]⟩ (strBytes ("XY")) =
      .error ("Invalid value for Content-Length") :=
  ⟨(c4_body_framing ⟨some ("GET"), some ("http://a/"), some 1, []⟩ (strBytes ("XY"))
      ("GET") ("http://a/") ("http://a/") ("GET") [] rfl rfl (by decide) rfl (by decide)
      (by decide)).1 (by decide),
   (c4_body_framing ⟨some ("GET"), some ("http://a/"), some 1,
        [("Content-Length", strBytes ("3"))]⟩ (strBytes ("XY"))
      ("GET") ("http://a/") ("http://a/") ("GET") [("Content-Length", "3")]
      rfl rfl (by decide) rfl (by decide) (by decide)).2.1
      ("Content-Length", strBytes ("3")) 3 (by decide) (by decide),
   (c4_body_framing ⟨some ("GET"), some ("http://a/"), some 1,
        [("Content-Length", strBytes ("xy"))]⟩ (strBytes ("XY"))
      ("GET") ("http://a/") ("http://a/") ("GET") [("Content-Length", "xy")]
      rfl rfl (by decide) rfl (by decide) (by decide)).2.2
      ("Content-Length", strBytes ("xy")) (by decide) (by decide)⟩

/-- C6 counterexample: the claim says every HTTP/1.x version, including
HTTP/1.0, is accepted — but on the well-formed HTTP/1.0 request
`GET http://a/ HTTP/1.0\r\n\r\n` (parsed version minor 0) `decode` fails
with the unsupported-version error, because line 200 checks
`version != 1`. -/
theorem c6_counterexample :
    decode (strBytes ("GET http://a/ HTTP/1.0\r\n\r\n")) =
      .error ("Unsupported HTTP version") := by decide

/-- C6 (amended): `decode` fails with the unsupported-version error
exactly when the parsed version minor is not `1` — so HTTP/1.0 is
rejected, only HTTP/1.1 passes the version check; the header parser
accepts only the version tokens `HTTP/1.0` and `HTTP/1.1` (anything else
fails earlier with the parser's version error); and a missing version
yields the missing-version error. -/
theorem c6_version_handling :
    (∀ (hreq : HReq) (rest : List Nat) (m p u : String) (v : Nat),
        hreq.method = some m → hreq.path = some p → urlParse p = .ok u →
        hreq.version = some v → v ≠ 1 →
        finishDecode hreq rest = .error ("Unsupported HTTP version"))
    ∧ (∀ (hreq : HReq) (rest : List Nat),
        finishDecode hreq rest = .error ("Unsupported HTTP version") →
        ∃ v, hreq.version = some v ∧ v ≠ 1)
    ∧ (∀ (hreq : HReq) (rest : List Nat) (m p u : String),
        hreq.method = some m → hreq.path = some p → urlParse p = .ok u →
        hreq.version = none →
        finishDecode hreq rest = .error ("No version found"))
    ∧ (∀ (bs : List Nat) (v : Nat),
        parseVersionBytes bs = .ok v →
        (bs = strBytes ("HTTP/1.1") ∧ v = 1) ∨ (bs = strBytes ("HTTP/1.0") ∧ v = 0)) := by
  refine ⟨?_, ?_, ?_, ?_⟩
  · intro hreq rest m p u v hm hp hu hv hne
    simp [finishDecode, hm, hp, hu, hv, hne]
  · intro hreq rest h
    simp only [finishDecode] at h
    cases hm : hreq.method with
    | none => simp only [hm] at h; exact absurd h (by decide)
    | some m =>
      simp only [hm] at h
      cases hp : hreq.path with
      | none => simp only [hp] at h; exact absurd h (by decide)
      | some p =>
        simp only [hp] at h
        cases hu : urlParse p with
        | error e =>
          simp only [hu] at h
          rw [urlParse_error_msg p e hu] at h
          exact absurd h (by decide)
        | ok u =>
          simp only [hu] at h
          cases hv : hreq.version with
          | none => simp only [hv] at h; exact absurd h (by decide)
          | some v =>
            simp only [hv] at h
            by_cases hv1 : v ≠ 1
            · exact ⟨v, rfl, hv1⟩
            · rw [if_neg hv1] at h
              cases hmf : methodFromStr m with
              | error e =>
                simp only [hmf] at h
                rw [methodFromStr_error_msg m e hmf] at h
                exact absurd h (by decide)
              | ok m2 =>
                simp only [hmf] at h
                cases hsh : setHeaders hreq.headers with
                | error e =>
                  simp only [hsh] at h
                  rw [setHeaders_error_msg _ e hsh] at h
                  exact absurd h (by decide)
                | ok hdrs =>
                  simp only [hsh] at h
                  cases hcl : findCL hreq.headers with
                  | none => simp only [hcl] at h; exact absurd h (by simp)
                  | some cl =>
                    simp only [hcl] at h
                    cases hpn : (asciiDecode cl.2).bind parseUsize with
                    | none => simp only [hpn] at h; exact absurd h (by decide)
                    | some n => simp only [hpn] at h; exact absurd h (by simp)
  · intro hreq rest m p u hm hp hu hv
    simp [finishDecode, hm, hp, hu, hv]
  · intro bs v h
    by_cases b1 : bs = strBytes ("HTTP/1.1")
    · left
      refine ⟨b1, ?_⟩
      rw [parseVersionBytes, if_pos b1] at h
      injection h with h
      exact h.symm
    · by_cases b0 : bs = strBytes ("HTTP/1.0")
      · right
        refine ⟨b0, ?_⟩
        rw [parseVersionBytes, if_neg b1, if_pos b0] at h
        injection h with h
        exact h.symm
      · rw [parseVersionBytes, if_neg b1, if_neg b0] at h
        exact absurd h (by simp)

/-- Witness for C6 (amended) at concrete inputs: an HTTP/1.0 head (parsed
version 0) gets the unsupported-version error, and the version token
`HTTP/1.0` indeed parses to minor version 0. -/
theorem c6_witness :
    finishDecode ⟨some ("GET"), some ("http://a/"), some 0, []⟩ [] =
      .error ("Unsupported HTTP version") ∧
    ((strBytes ("HTTP/1.0") = strBytes ("HTTP/1.1") ∧ 0 = 1) ∨
      (strBytes ("HTTP/1.0") = strBytes ("HTTP/1.0") ∧ 0 = 0)) :=
  ⟨c6_version_handling.1 ⟨some ("GET"), some ("http://a/"), some 0, []⟩ []
      ("GET") ("http://a/") ("http://a/") 0 rfl rfl (by decide) rfl (by decide),
   c6_version_handling.2.2.2 (strBytes ("HTTP/1.0")) 0 (by decide)⟩

/-- One-step unfolding of `connectLoop` with positive fuel, mirroring one
iteration of the Rust loop. -/
theorem connectLoop_succ (handler : Request → Response) (schedule : Nat → Bool)
    (fuel num : Nat) (req : Request) (cont : Option (List Nat)) (out : List Nat)
    (count : Nat) :
    connectLoop handler schedule (fuel + 1) num req cont out count =
      (if MAX_REQUESTS < num + 1 then ⟨out, count, .ok ()⟩
       else
         match encode (handler req) with
         | .error e => ⟨out, count, .error e⟩
         | .ok enc =>
           if schedule (num + 1) then ⟨out ++ enc.allBytes, count + 1, .ok ()⟩
           else
             match decode (nextParseSource req cont) with
             | .ok (some (r, c)) =>
               connectLoop handler schedule fuel (num + 1) r c (out ++ enc.allBytes) (count + 1)
             | .ok none => ⟨out ++ enc.allBytes, count + 1, .ok ()⟩
             | .error e => ⟨out ++ enc.allBytes, count + 1, .error e⟩) := rfl

/-- A response with a known body length always encodes successfully. -/
theorem encode_ok_exists :
    ∀ r : Response, r.lenKnown = true → ∃ enc, encode r = .ok enc := by
  intro r h
  have hf : framingLine r =
      .ok (strBytes ("Content-Length: " ++ toString r.body.length ++ "\r\n")) := by
    rw [framingLine, if_pos h]
  refine ⟨Encoder.new
      (strBytes (statusLine r)
        ++ strBytes ("Content-Length: " ++ toString r.body.length ++ "\r\n")
        ++ (r.headers.map (fun h2 => strBytes (headerLine h2))).flatten
        ++ strBytes ("\r\n")) r.body, ?_⟩
  simp only [encode, hf]

theorem availNext_succ :
    ∀ (n : Nat) (req : Request) (cont : Option (List Nat)),
      availNext (n + 1) req cont = true →
      ∃ r c, decode (nextParseSource req cont) = .ok (some (r, c)) ∧ availNext n r c = true := by
  intro n req cont h
  rw [availNext] at h
  cases hd : decode (nextParseSource req cont) with
  | error e => rw [hd] at h; exact absurd h (by simp)
  | ok o =>
    cases o with
    | none => rw [hd] at h; exact absurd h (by simp)
    | some rc =>
      obtain ⟨r, c⟩ := rc
      rw [hd] at h
      exact ⟨r, c, rfl, h⟩

/-- With `n` more well-formed requests available and no timeout, the loop
serves exactly `n` further requests and then closes gracefully at the
ceiling. -/
theorem connectLoop_ceiling (handler : Request → Response)
    (hlen : ∀ r, (handler r).lenKnown = true) :
    ∀ n : Nat, n ≤ MAX_REQUESTS →
      ∀ (req : Request) (cont : Option (List Nat)) (out : List Nat) (count : Nat),
        availNext n req cont = true →
        ∃ o, connectLoop handler (fun _ => false) (n + 1) (MAX_REQUESTS - n) req cont out count =
          ⟨o, count + n, .ok ()⟩ := by
  intro n
  induction n with
  | zero =>
    intro _ req cont out count _
    refine ⟨out, ?_⟩
    rw [connectLoop_succ]
    rw [if_pos (by simp [MAX_REQUESTS])]
    simp
  | succ n ih =>
    intro hn req cont out count hav
    obtain ⟨r, c, hd, hav2⟩ := availNext_succ n req cont hav
    obtain ⟨enc, henc⟩ := encode_ok_exists (handler req) (hlen req)
    have hnum : ¬ MAX_REQUESTS < MAX_REQUESTS - (n + 1) + 1 := by
      simp only [MAX_REQUESTS] at hn ⊢
      omega
    have hrec : MAX_REQUESTS - (n + 1) + 1 = MAX_REQUESTS - n := by
      simp only [MAX_REQUESTS] at hn ⊢
      omega
    obtain ⟨o, ho⟩ :=
      ih (Nat.le_of_succ_le hn) r c (out ++ enc.allBytes) (count + 1) hav2
    refine ⟨o, ?_⟩
    have harith : count + 1 + n = count + (n + 1) := by omega
    rw [harith] at ho
    rw [connectLoop_succ, if_neg hnum]
    simp only [henc, hd]
    rw [hrec, ho]
    simp

/-- C7: on any connection whose input holds at least 201 well-formed
back-to-back requests (and a handler whose responses are encodable, i.e.
have a known body length), `connect` with no idle timeout invokes the
handler exactly 200 times (`MAX_REQUESTS`) and then returns successfully:
the per-connection ceiling bounds handler invocations and the close is
graceful. -/
theorem c7_request_ceiling :
    ∀ (input : List Nat) (handler : Request → Response),
      (∀ r, (handler r).lenKnown = true) →
      availInput (MAX_REQUESTS + 1) input = true →
      (connect input handler (fun _ => false)).calls = MAX_REQUESTS ∧
      (connect input handler (fun _ => false)).result = .ok () := by
  intro input handler hlen hav
  rw [availInput] at hav
  cases hd : decode input with
  | error e => rw [hd] at hav; exact absurd hav (by simp)
  | ok o =>
    cases o with
    | none => rw [hd] at hav; exact absurd hav (by simp)
    | some rc =>
      obtain ⟨req, cont⟩ := rc
      rw [hd] at hav
      obtain ⟨o, ho⟩ :=
        connectLoop_ceiling handler hlen MAX_REQUESTS (Nat.le_refl _) req cont [] 0 hav
      rw [Nat.sub_self] at ho
      have hc : connect input handler (fun _ => false) =
          connectLoop handler (fun _ => false) (MAX_REQUESTS + 1) 0 req cont [] 0 := by
        simp [connect, hd]
      rw [hc, ho]
      exact ⟨Nat.zero_add _, rfl⟩

/-- Decoding a stream that starts with the fixed request
`GET http://a/ HTTP/1.1\r\n\r\n` yields that request and the symbolic
remainder of the stream as the continuation. -/
theorem decode_getA :
    ∀ rest : List Nat,
      decode (strBytes ("GET http://a/ HTTP/1.1\r\n\r\n") ++ rest) =
        .ok (some ({ method := "GET", url := "http://a/", headers := [] }, some rest)) :=
  fun _ => rfl

/-- Probing availability through a `some` continuation is availability of
that stream. -/
theorem availNext_some :
    ∀ (n : Nat) (r : Request) (s : List Nat), availNext n r (some s) = availInput n s := by
  intro n r s
  cases n with
  | zero => rfl
  | succ n => rw [availNext, availInput, nextParseSource]

/-- A stream of `n` back-to-back copies of the fixed request holds `n`
well-formed requests. -/
theorem availInput_replicate :
    ∀ n : Nat,
      availInput n ((List.replicate n (strBytes ("GET http://a/ HTTP/1.1\r\n\r\n"))).flatten)
        = true := by
  intro n
  induction n with
  | zero => rfl
  | succ n ih =>
    simp only [List.replicate_succ, List.flatten_cons, availInput, decode_getA, availNext_some]
    exact ih

/-- Witness for C7: 201 copies of `GET http://a/ HTTP/1.1\r\n\r\n`
back-to-back, a handler answering 200 with body `ok`. -/
theorem c7_witness :
    availInput (MAX_REQUESTS + 1)
        ((List.replicate 201 (strBytes ("GET http://a/ HTTP/1.1\r\n\r\n"))).flatten) = true ∧
    (connect ((List.replicate 201 (strBytes ("GET http://a/ HTTP/1.1\r\n\r\n"))).flatten)
        (fun _ => ⟨200, [], strBytes ("ok"), true⟩) (fun _ => false)).calls = MAX_REQUESTS ∧
    (connect ((List.replicate 201 (strBytes ("GET http://a/ HTTP/1.1\r\n\r\n"))).flatten)
        (fun _ => ⟨200, [], strBytes ("ok"), true⟩) (fun _ => false)).result = .ok () :=
  ⟨availInput_replicate 201,
   c7_request_ceiling
     ((List.replicate 201 (strBytes ("GET http://a/ HTTP/1.1\r\n\r\n"))).flatten)
     (fun _ => ⟨200, [], strBytes ("ok"), true⟩)
     (fun _ => rfl)
     (availInput_replicate 201)⟩

/-- C10: one serving iteration below the ceiling, after writing the
response: if the idle wait for the next request times out, the loop exits
with `Ok(())`; if the next decode reports a clean end-of-stream
(`Ok(None)`), the loop exits with `Ok(())`; only a structural decode
error is propagated as the connection's error from that step. -/
theorem c10_idle_wait_outcomes :
    ∀ (handler : Request → Response) (schedule : Nat → Bool) (fuel num count : Nat)
      (req : Request) (cont : Option (List Nat)) (out : List Nat) (enc : Encoder),
      num < MAX_REQUESTS →
      encode (handler req) = .ok enc →
      ((schedule (num + 1) = true →
          connectLoop handler schedule (fuel + 1) num req cont out count =
            ⟨out ++ enc.allBytes, count + 1, .ok ()⟩)
       ∧ (schedule (num + 1) = false →
          decode (nextParseSource req cont) = .ok none →
          connectLoop handler schedule (fuel + 1) num req cont out count =
            ⟨out ++ enc.allBytes, count + 1, .ok ()⟩)
       ∧ (∀ e, schedule (num + 1) = false →
          decode (nextParseSource req cont) = .error e →
          connectLoop handler schedule (fuel + 1) num req cont out count =
            ⟨out ++ enc.allBytes, count + 1, .error e⟩)) := by
  intro handler schedule fuel num count req cont out enc hnum henc
  have hceil : ¬ MAX_REQUESTS < num + 1 := by
    simp only [MAX_REQUESTS] at hnum ⊢
    omega
  refine ⟨?_, ?_, ?_⟩
  · intro hs
    rw [connectLoop_succ, if_neg hceil]
    simp only [henc]
    rw [if_pos hs]
  · intro hs hd
    rw [connectLoop_succ, if_neg hceil]
    simp only [henc]
    rw [if_neg (by simp [hs])]
    simp only [hd]
  · intro e hs hd
    rw [connectLoop_succ, if_neg hceil]
    simp only [henc]
    rw [if_neg (by simp [hs])]
    simp only [hd]

/-- Witness for C10 at concrete states: a timeout at the first idle wait,
a clean EOF continuation, and an erroring continuation (an origin-form
request head). -/
theorem c10_witness :
    (connectLoop (fun _ => ⟨200, [], strBytes ("ok"), true⟩) (fun _ => true) 5 0
        { method := "GET", url := "http://a/", headers := [] } (some []) [] 0 =
      ⟨[] ++ (Encoder.new
          (strBytes ("HTTP/1.1 200 OK\r\nContent-Length: 2\r\n\r\n"))
          (strBytes ("ok"))).allBytes, 1, .ok ()⟩) ∧
    (connectLoop (fun _ => ⟨200, [], strBytes ("ok"), true⟩) (fun _ => false) 5 0
        { method := "GET", url := "http://a/", headers := [] } (some []) [] 0 =
      ⟨[] ++ (Encoder.new
          (strBytes ("HTTP/1.1 200 OK\r\nContent-Length: 2\r\n\r\n"))
          (strBytes ("ok"))).allBytes, 1, .ok ()⟩) ∧
    (connectLoop (fun _ => ⟨200, [], strBytes ("ok"), true⟩) (fun _ => false) 5 0
        { method := "GET", url := "http://a/", headers := [] }
        (some (strBytes ("GET / HTTP/1.1\r\n\r\n"))) [] 0 =
      ⟨[] ++ (Encoder.new
          (strBytes ("HTTP/1.1 200 OK\r\nContent-Length: 2\r\n\r\n"))
          (strBytes ("ok"))).allBytes, 1, .error ("relative URL without a base")⟩) :=
  ⟨(c10_idle_wait_outcomes (fun _ => ⟨200, [], strBytes ("ok"), true⟩) (fun _ => true) 4 0 0
      { method := "GET", url := "http://a/", headers := [] } (some []) []
      (Encoder.new (strBytes ("HTTP/1.1 200 OK\r\nContent-Length: 2\r\n\r\n"))
        (strBytes ("ok")))
      (by decide) (by decide)).1 rfl,
   (c10_idle_wait_outcomes (fun _ => ⟨200, [], strBytes ("ok"), true⟩) (fun _ => false) 4 0 0
      { method := "GET", url := "http://a/", headers := [] } (some []) []
      (Encoder.new (strBytes ("HTTP/1.1 200 OK\r\nContent-Length: 2\r\n\r\n"))
        (strBytes ("ok")))
      (by decide) (by decide)).2.1 rfl (by decide),
   (c10_idle_wait_outcomes (fun _ => ⟨200, [], strBytes ("ok"), true⟩) (fun _ => false) 4 0 0
      { method := "GET", url := "http://a/", headers := [] }
      (some (strBytes ("GET / HTTP/1.1\r\n\r\n"))) []
      (Encoder.new (strBytes ("HTTP/1.1 200 OK\r\nContent-Length: 2\r\n\r\n"))
        (strBytes ("ok")))
      (by decide) (by decide)).2.2 ("relative URL without a base") rfl (by decide)⟩

theorem encInv_init (hs bs : List Nat) (hpos : 0 < hs.length) :
    EncInv hs bs (Encoder.new hs bs) [] := by
  refine ⟨rfl, Nat.zero_le _, ?_, 0, Nat.zero_le _, rfl, rfl, fun _ => rfl, ?_⟩
  · simp only [Encoder.new]
    constructor
    · intro h; exact absurd h (by simp)
    · intro h; omega
  · intro h
    exact absurd h (by simp [Encoder.new])

theorem pollRead_inv (hs bs : List Nat) (e : Encoder) (out : List Nat) (cap : Nat)
    (hcap : 0 < cap) (hinv : EncInv hs bs e out) :
    EncInv hs bs (pollRead e cap).2 (out ++ (pollRead e cap).1) := by
  obtain ⟨hhs, hcur, hiff, k, hk, hbody, hout, hk0, hbd⟩ := hinv
  have hblen : e.body.length = bs.length - k := by rw [hbody, List.length_drop]
  by_cases hHD : e.headersDone = true
  · have hceq : e.cursor = hs.length := hiff.1 hHD
    by_cases hBD : e.bodyDone = true
    · have hpoll : pollRead e cap = ([], e) := by
        simp [pollRead, hHD, hBD]
      rw [hpoll, List.append_nil]
      exact ⟨hhs, hcur, hiff, k, hk, hbody, hout, hk0, hbd⟩
    · have hBD' : e.bodyDone = false := by
        revert hBD; cases e.bodyDone <;> simp
      simp only [EncInv, pollRead, hHD, hBD', if_true, if_false, Bool.false_eq_true,
        List.length_nil, Nat.sub_zero, Nat.zero_add, List.nil_append, ite_true, ite_false]
      refine ⟨hhs, hcur, ?_, k + min e.body.length cap, ?_, ?_, ?_, ?_, ?_⟩
      · simp [hceq]
      · omega
      · rw [hbody, List.drop_drop]
      · rw [hout, hbody, List.append_assoc, ← List.take_add]
      · intro hlt; omega
      · intro hdone
        simp only [decide_eq_true_eq] at hdone
        constructor
        · omega
        · exact hceq
  · have hHD' : e.headersDone = false := by
      revert hHD; cases e.headersDone <;> simp
    have hclt : e.cursor < hs.length := by
      rcases Nat.lt_or_ge e.cursor hs.length with h | h
      · exact h
      · exact absurd (hiff.2 (Nat.le_antisymm hcur h)) hHD
    have hkz : k = 0 := hk0 hclt
    have hBD' : e.bodyDone = false := by
      cases hbde : e.bodyDone
      · rfl
      · exact absurd (hbd hbde).2 (by omega)
    have hlenpos : 0 < min (e.headers.length - e.cursor) cap := by
      rw [hhs]; omega
    have hdrlen : ((e.headers.drop e.cursor).take (min (e.headers.length - e.cursor) cap)).length
        = min (e.headers.length - e.cursor) cap := by
      rw [List.length_take, List.length_drop]
      omega
    simp only [EncInv, pollRead, hHD', hBD', Bool.false_eq_true, if_false, ite_false]
    subst hkz
    simp only [List.take_zero, List.append_nil] at hout
    rw [List.drop_zero] at hbody
    rw [hhs] at hdrlen hlenpos ⊢
    rw [hbody] at hblen ⊢
    rw [hdrlen]
    refine ⟨rfl, by omega, by simp,
      bs.length ⊓ (cap - (hs.length - e.cursor) ⊓ cap), by omega, rfl, ?_, ?_, ?_⟩
    · rw [hout, List.take_add, List.append_assoc]
    · intro h
      omega
    · intro h
      rw [decide_eq_true_eq] at h
      omega

theorem emitAll_inv (hs bs : List Nat) :
    ∀ (caps : List Nat) (e : Encoder) (out : List Nat),
      EncInv hs bs e out → (∀ c ∈ caps, 0 < c) →
      EncInv hs bs (emitAll e caps).2 (out ++ (emitAll e caps).1) := by
  intro caps
  induction caps with
  | nil =>
    intro e out hinv _
    simpa [emitAll] using hinv
  | cons c cs ih =>
    intro e out hinv hpos
    have hc : 0 < c := hpos c (by simp)
    have h1 := pollRead_inv hs bs e out c hc hinv
    have h2 := ih (pollRead e c).2 (out ++ (pollRead e c).1) h1
      (fun x hx => hpos x (by simp [hx]))
    simp only [emitAll]
    rw [← List.append_assoc]
    exact h2

theorem encInv_front (hs bs : List Nat) (e : Encoder) (out : List Nat)
    (hinv : EncInv hs bs e out) : out = (hs ++ bs).take out.length := by
  obtain ⟨hhs, hcur, hiff, k, hk, hbody, hout, hk0, hbd⟩ := hinv
  by_cases hc : e.cursor < hs.length
  · have hkz := hk0 hc
    subst hkz
    simp only [List.take_zero, List.append_nil] at hout
    rw [hout, List.length_take]
    have hmin : min e.cursor hs.length = e.cursor := by omega
    rw [hmin, List.take_append_of_le_length hcur]
  · have hceq : e.cursor = hs.length := Nat.le_antisymm hcur (Nat.le_of_not_lt hc)
    rw [hout, hceq, List.take_length, List.length_append, List.length_take]
    have hmin : min k bs.length = k := by omega
    rw [hmin, List.take_append]

theorem encInv_eos (hs bs : List Nat) (e : Encoder) (out : List Nat) (cap : Nat)
    (hcap : 0 < cap) (hinv : EncInv hs bs e out) :
    (pollRead e cap).1 = [] ↔ out = hs ++ bs := by
  obtain ⟨hhs, hcur, hiff, k, hk, hbody, hout, hk0, hbd⟩ := hinv
  have hblen : e.body.length = bs.length - k := by rw [hbody, List.length_drop]
  by_cases hHD : e.headersDone = true
  · have hceq := hiff.1 hHD
    have houteq : (out = hs ++ bs) ↔ bs.length ≤ k := by
      rw [hout, hceq, List.take_length]
      constructor
      · intro h
        have hlen := congrArg List.length h
        simp only [List.length_append, List.length_take] at hlen
        omega
      · intro h
        rw [List.take_of_length_le h]
    by_cases hBD : e.bodyDone = true
    · have hpoll : pollRead e cap = ([], e) := by simp [pollRead, hHD, hBD]
      rw [hpoll]
      exact iff_of_true rfl (houteq.2 (hbd hBD).1)
    · have hBD' : e.bodyDone = false := by
        revert hBD; cases e.bodyDone <;> simp
      have hpoll1 : (pollRead e cap).1 = e.body.take (min e.body.length cap) := by
        simp [pollRead, hHD, hBD']
      rw [hpoll1, houteq]
      constructor
      · intro h
        have hlen := congrArg List.length h
        simp only [List.length_take, List.length_nil] at hlen
        omega
      · intro h
        have hnil : e.body = [] := List.eq_nil_of_length_eq_zero (by omega)
        rw [hnil]
        simp
  · have hHD' : e.headersDone = false := by
      revert hHD; cases e.headersDone <;> simp
    have hclt : e.cursor < hs.length := by
      rcases Nat.lt_or_ge e.cursor hs.length with h | h
      · exact h
      · exact absurd (hiff.2 (Nat.le_antisymm hcur h)) hHD
    have hkz := hk0 hclt
    have hBD' : e.bodyDone = false := by
      cases hbde : e.bodyDone
      · rfl
      · exact absurd (hbd hbde).2 (by omega)
    constructor
    · intro h
      exfalso
      have hp1 : (pollRead e cap).1 =
          (e.headers.drop e.cursor).take (min (e.headers.length - e.cursor) cap)
            ++ e.body.take (min e.body.length
                (cap - ((e.headers.drop e.cursor).take
                  (min (e.headers.length - e.cursor) cap)).length)) := by
        simp [pollRead, hHD', hBD']
      rw [hp1] at h
      have hlen := congrArg List.length h
      simp only [List.length_append, List.length_take, List.length_drop,
        List.length_nil] at hlen
      rw [hhs] at hlen
      omega
    · intro h
      exfalso
      have hlen := congrArg List.length h
      rw [hout, hkz] at hlen
      simp only [List.take_zero, List.append_nil, List.length_take,
        List.length_append] at hlen
      omega

/-- Shape of a successful `encode`: the encoder is freshly built over a
nonempty header buffer and the response body. -/
theorem encode_ok_shape :
    ∀ (res : Response) (enc : Encoder), encode res = .ok enc →
      ∃ B, enc = Encoder.new B res.body ∧ 0 < B.length := by
  intro res enc h
  have h9 : 0 < (strBytes (statusLine res)).length := by
    rw [strBytes, List.length_map, statusLine]
    simp only [String.data_append, List.length_append, List.length_cons, List.length_nil]
    omega
  cases hf : framingLine res with
  | error e =>
    simp only [encode, hf] at h
    exact absurd h (by simp)
  | ok fl =>
    simp only [encode, hf, Except.ok.injEq] at h
    refine ⟨strBytes (statusLine res) ++ fl
      ++ (res.headers.map (fun x => strBytes (headerLine x))).flatten
      ++ strBytes ("\r\n"), h.symm, ?_⟩
    simp only [List.length_append]
    omega

/-- C5: the `Encoder` returned by `encode`, read as a pull source with any
sequence of positive-capacity reads, emits a prefix of
`headers ++ body` — every header byte before any body byte, no header
byte dropped or duplicated, the header region never revisited — and a
further read yields zero bytes exactly when the header region is
exhausted and the body has nothing left to report. -/
theorem c5_encoder_emission :
    ∀ (res : Response) (enc : Encoder) (caps : List Nat) (cap : Nat),
      encode res = .ok enc →
      (∀ c ∈ caps, 0 < c) → 0 < cap →
      (emitAll enc caps).1 = (enc.headers ++ enc.body).take (emitAll enc caps).1.length ∧
      ((pollRead (emitAll enc caps).2 cap).1 = [] ↔
        (emitAll enc caps).1 = enc.headers ++ enc.body) := by
  intro res enc caps cap henc hpos hcap
  obtain ⟨B, hB, hBpos⟩ := encode_ok_shape res enc henc
  subst hB
  have h0 := encInv_init B res.body hBpos
  have h1 := emitAll_inv B res.body caps _ [] h0 hpos
  simp only [List.nil_append] at h1
  exact ⟨encInv_front _ _ _ _ h1, encInv_eos _ _ _ _ cap hcap h1⟩

/-- Witness for C5: the scenario response, read with capacities 1, 2, 3
and then probed with capacity 5. -/
theorem c5_witness :
    (emitAll (Encoder.new (strBytes ("HTTP/1.1 200 OK\r\nContent-Length: 2\r\n\r\n"))
        (strBytes ("ok"))) [1, 2, 3]).1 =
      ((Encoder.new (strBytes ("HTTP/1.1 200 OK\r\nContent-Length: 2\r\n\r\n"))
          (strBytes ("ok"))).headers
        ++ (Encoder.new (strBytes ("HTTP/1.1 200 OK\r\nContent-Length: 2\r\n\r\n"))
          (strBytes ("ok"))).body).take
        (emitAll (Encoder.new (strBytes ("HTTP/1.1 200 OK\r\nContent-Length: 2\r\n\r\n"))
          (strBytes ("ok"))) [1, 2, 3]).1.length ∧
    ((pollRead (emitAll (Encoder.new (strBytes ("HTTP/1.1 200 OK\r\nContent-Length: 2\r\n\r\n"))
          (strBytes ("ok"))) [1, 2, 3]).2 5).1 = [] ↔
      (emitAll (Encoder.new (strBytes ("HTTP/1.1 200 OK\r\nContent-Length: 2\r\n\r\n"))
          (strBytes ("ok"))) [1, 2, 3]).1 =
        (Encoder.new (strBytes ("HTTP/1.1 200 OK\r\nContent-Length: 2\r\n\r\n"))
            (strBytes ("ok"))).headers
          ++ (Encoder.new (strBytes ("HTTP/1.1 200 OK\r\nContent-Length: 2\r\n\r\n"))
            (strBytes ("ok"))).body) :=
  c5_encoder_emission ⟨200, [], strBytes ("ok"), true⟩
    (Encoder.new (strBytes ("HTTP/1.1 200 OK\r\nContent-Length: 2\r\n\r\n")) (strBytes ("ok")))
    [1, 2, 3] 5 (by decide) (by decide) (by decide)

/-- A fresh encoder drained with one big read (and one follow-up read)
yields exactly the header buffer followed by the whole body. -/
theorem emitAll_drain (hs bs : List Nat) :
    (emitAll (Encoder.new hs bs) [hs.length + bs.length + 1, 1]).1 = hs ++ bs := by
  by_cases hz : hs.length + bs.length = 0
  · have h1 : hs = [] := List.eq_nil_of_length_eq_zero (by omega)
    have h2 : bs = [] := List.eq_nil_of_length_eq_zero (by omega)
    subst h1; subst h2
    rfl
  · have hmin1 : min (hs.length - 0) (hs.length + bs.length + 1) = hs.length := by omega
    have hsub : hs.length + bs.length + 1 - hs.length = bs.length + 1 := by omega
    have hminb : min bs.length (bs.length + 1) = bs.length := by omega
    have hminh : hs.length ⊓ (hs.length + bs.length + 1) = hs.length := by omega
    have hpoll1 : pollRead (Encoder.new hs bs) (hs.length + bs.length + 1) =
        (hs ++ bs, ⟨hs.length, hs, true, [],
          decide (hs.length + bs.length = 0), 0 + bs.length⟩) := by
      simp [pollRead, Encoder.new, hminh, hsub, hminb, List.take_length]
    have hdec : decide (hs.length + bs.length = 0) = false := by
      simp [hz]
    have hpoll2 : pollRead ⟨hs.length, hs, true, [],
        decide (hs.length + bs.length = 0), 0 + bs.length⟩ 1 =
        ([], ⟨hs.length, hs, true, [], true, 0 + bs.length + 0⟩) := by
      rw [hdec]
      simp [pollRead]
    simp only [emitAll, hpoll1, hpoll2]
    simp

/-- C8: for every response with a known body length the encoder emits a
`Content-Length` header whose value is exactly the number of bytes the
body yields (draining the returned encoder produces the header buffer —
whose only framing line is that `Content-Length` line — followed by
exactly those body bytes); for a response without a known length `encode`
returns no `Encoder` at all but fails hard on the chunked path, so no
chunked framing is ever emitted to the wire. -/
theorem c8_content_length :
    ∀ res : Response,
      (res.lenKnown = true →
        ∃ enc, encode res = .ok enc ∧
          enc.headers =
            strBytes (statusLine res)
              ++ strBytes ("Content-Length: " ++ toString res.body.length ++ "\r\n")
              ++ (res.headers.map (fun h => strBytes (headerLine h))).flatten
              ++ strBytes ("\r\n") ∧
          enc.body = res.body ∧
          (emitAll enc [enc.headers.length + enc.body.length + 1, 1]).1 =
            enc.headers ++ res.body)
      ∧ (res.lenKnown = false →
          encode res = .error ("chunked encoding is not implemented yet"))
      ∧ (∀ l, framingLine res = .ok l →
          l = strBytes ("Content-Length: " ++ toString res.body.length ++ "\r\n")) := by
  intro res
  refine ⟨?_, ?_, ?_⟩
  · intro h
    have hf : framingLine res =
        .ok (strBytes ("Content-Length: " ++ toString res.body.length ++ "\r\n")) := by
      rw [framingLine, if_pos h]
    refine ⟨Encoder.new
        (strBytes (statusLine res)
          ++ strBytes ("Content-Length: " ++ toString res.body.length ++ "\r\n")
          ++ (res.headers.map (fun h => strBytes (headerLine h))).flatten
          ++ strBytes ("\r\n")) res.body, ?_, rfl, rfl, ?_⟩
    · simp only [encode, hf]
    · exact emitAll_drain _ _
  · intro h
    rw [encode, framingLine, if_neg (by simp [h])]
  · intro l hf
    by_cases h : res.lenKnown = true
    · rw [framingLine, if_pos h] at hf
      injection hf with hf
      exact hf.symm
    · rw [framingLine, if_neg h] at hf
      exact absurd hf (by simp)

/-- Witness for C8 at concrete responses: a known-length 200/`ok` response
with one extra header, and an unknown-length response that fails hard. -/
theorem c8_witness :
    (∃ enc, encode ⟨200, [("X", "y")], strBytes ("ok"), true⟩ = .ok enc ∧
      enc.headers =
        strBytes (statusLine ⟨200, [("X", "y")], strBytes ("ok"), true⟩)
          ++ strBytes ("Content-Length: "
              ++ toString (strBytes ("ok")).length ++ "\r\n")
          ++ ([("X", "y")].map (fun h => strBytes (headerLine h))).flatten
          ++ strBytes ("\r\n") ∧
      enc.body = strBytes ("ok") ∧
      (emitAll enc [enc.headers.length + enc.body.length + 1, 1]).1 =
        enc.headers ++ strBytes ("ok")) ∧
    encode ⟨200, [], strBytes ("ok"), false⟩ =
      .error ("chunked encoding is not implemented yet") :=
  ⟨(c8_content_length ⟨200, [("X", "y")], strBytes ("ok"), true⟩).1 rfl,
   (c8_content_length ⟨200, [], strBytes ("ok"), false⟩).2.1 rfl⟩

end AsyncH1
